import Mathlib

/-!
Verification development for `pbc-packing.py`, a sequential packing
orchestrator that places large molecules into a periodic simulation box by
driving an external packing engine round by round.

The Python source is shallowly embedded below.  Exact numeric code
(offset arithmetic, histogram binning, interval clamping, wrapping) is
translated over `ℚ`; the legacy rotation primitive, which the original
program evaluates with `np.cos`/`np.sin`/`np.sqrt`, is embedded over `ℝ`.
Randomness is made explicit: every random draw of the source
(`np.random.random`, `np.random.choice`) becomes an input parameter of the
embedded function, so theorems quantify over all possible draws.
Fallible steps (a division by zero inside `hist / hist.sum()` followed by
`np.random.choice` on invalid probabilities, or a missing engine output
file) are embedded with `Option`/`Except`.
-/

/-- Per-axis pbc flag as the number numpy uses in arithmetic (`1` for a
periodic axis, `0` for a wall axis). -/
def pbcVal (b : Bool) : ℚ := if b then 1 else 0

/-- Per-axis value of `2*np.float_(np.logical_not(pbcs))` in `_init_offsets`:
`2` on a wall axis, `0` on a periodic axis. -/
def notPbcVal (b : Bool) : ℚ := 2 * (if b then 0 else 1)

/-- Low components (`[:3]`) of `solvent_box_offsets` after `_init_offsets`:
starts at `0`, gets `+= pbcs` and `+= 2*not(pbcs)`. -/
def solvent_box_offsets_low (pbc : Fin 3 → Bool) (i : Fin 3) : ℚ :=
  0 + pbcVal (pbc i) + notPbcVal (pbc i)

/-- High components (`[3:]`) of `solvent_box_offsets` after `_init_offsets`:
starts at `0`, gets `-= pbcs` and `-= 2*not(pbcs)`. -/
def solvent_box_offsets_high (pbc : Fin 3 → Bool) (i : Fin 3) : ℚ :=
  0 - pbcVal (pbc i) - notPbcVal (pbc i)

/-- Low components of `long_mol_box_offsets`: set to `2*not(pbcs)`. -/
def long_mol_box_offsets_low (pbc : Fin 3 → Bool) (i : Fin 3) : ℚ :=
  notPbcVal (pbc i)

/-- High components of `long_mol_box_offsets`: set to `-2*not(pbcs)`. -/
def long_mol_box_offsets_high (pbc : Fin 3 → Bool) (i : Fin 3) : ℚ :=
  - notPbcVal (pbc i)

/-- The solvent insertion window on one axis, as rendered by
`solvent_box_str` (`box[3:] += self.box_side`). -/
def solventWindow (boxSide : Fin 3 → ℚ) (pbc : Fin 3 → Bool) (i : Fin 3) : ℚ × ℚ :=
  (solvent_box_offsets_low pbc i, boxSide i + solvent_box_offsets_high pbc i)

/-- The large-molecule insertion window on one axis, as computed both by
`long_mol_box_str` and at the top of `random_long_mol_subbox`
(`inside[3:] += self.box_side`). -/
def longMolWindow (boxSide : Fin 3 → ℚ) (pbc : Fin 3 → Bool) (i : Fin 3) : ℚ × ℚ :=
  (long_mol_box_offsets_low pbc i, boxSide i + long_mol_box_offsets_high pbc i)

/-- Bin edge `k` of the 50-bin histogram `np.histogram(..., bins=50,
range=(low, high))` builds: equally spaced between `low` and `high`. -/
def binEdge (low high : ℚ) (k : ℕ) : ℚ := low + k * (high - low) / 50

/-- Bin midpoint `k`, i.e. `edges_mid = (edges[1:] + edges[:-1]) / 2`. -/
def edgeMid (low high : ℚ) (k : ℕ) : ℚ :=
  (binEdge low high (k + 1) + binEdge low high k) / 2

/-- Membership of a sample in histogram bin `k` under numpy semantics:
bins are half-open except the last, which is closed. -/
def inBin (low high x : ℚ) (k : Fin 50) : Bool :=
  if k.val = 49 then
    decide (binEdge low high 49 ≤ x ∧ x ≤ binEdge low high 50)
  else
    decide (binEdge low high k.val ≤ x ∧ x < binEdge low high (k.val + 1))

/-- The bin counts of `np.histogram(xs, bins=50, range=(low, high))`. -/
def histCounts (xs : List ℚ) (low high : ℚ) (k : Fin 50) : ℕ :=
  (xs.filter fun x => inBin low high x k).length

/-- `hist.max()` over the 50 bins. -/
def maxCount (counts : Fin 50 → ℕ) : ℕ := Finset.univ.sup counts

/-- The inverted counts `hist = hist.max() - hist`.  numpy integer
subtraction never underflows here because every count is at most the max,
matching truncated subtraction on `ℕ`. -/
def invertedCounts (counts : Fin 50 → ℕ) (k : Fin 50) : ℕ :=
  maxCount counts - counts k

/-- The normalisation `hist = hist / hist.sum()` followed by
`np.random.choice(edges_mid, p=hist)`.  When the inverted counts sum to
zero, numpy computes `0/0 = nan` for every entry and `np.random.choice`
then rejects the probability vector; that failure is embedded as `none`. -/
def normalizedProbs (counts : Fin 50 → ℕ) : Option (Fin 50 → ℚ) :=
  let s : ℕ := ∑ k, invertedCounts counts k
  if s = 0 then none
  else some fun k => (invertedCounts counts k : ℚ) / (s : ℚ)

/-- The `./initial.pdb` branch of `random_long_mol_subbox` for one wall
axis: build the histogram, invert and normalise it (failing like
`np.random.choice` does when the probabilities are invalid, embedded as
`none`), take the sampled bin midpoint minus half the molecule extent,
clamp it to the window's low edge from below and to `high - M` from
above. -/
def subboxWallHist (low high M : ℚ) (xs : List ℚ) (midIdx : Fin 50) :
    Option (ℚ × ℚ) :=
  match normalizedProbs (histCounts xs low high) with
  | none => none
  | some _ =>
    let mid := edgeMid low high midIdx.val
    let randomLeft0 := max low (mid - M / 2)
    let randomLeft := min randomLeft0 (high - M)
    some (randomLeft, randomLeft + M)

/-- The no-`initial.pdb` branch of `random_long_mol_subbox` for one wall
axis: `random_left = np.random.random() * (high - low) + low`, then the
sub-interval of width `M` starting there (the source performs no
clipping in this branch). -/
def subboxWallUniform (low high M u : ℚ) : ℚ × ℚ :=
  (u * (high - low) + low, u * (high - low) + low + M)

/-- One axis of `random_long_mol_subbox`.  Inputs making the source's
randomness and environment explicit: `longMolMaxSide` is
`self._long_mol_max_side`; `hasInitial` is `os.path.exists('./initial.pdb')`;
`xs i` are the atom position projections of `./initial.pdb` on axis `i`;
`midIdx i` is the index of the bin midpoint returned by
`np.random.choice(edges_mid, p=hist)`; `u i` is the `np.random.random()`
draw of the uniform branch.  A periodic axis keeps the full window; a wall
axis is replaced by the sampled sub-interval. -/
def random_long_mol_subbox (boxSide : Fin 3 → ℚ) (pbc : Fin 3 → Bool)
    (longMolMaxSide : ℚ) (hasInitial : Bool) (xs : Fin 3 → List ℚ)
    (midIdx : Fin 3 → Fin 50) (u : Fin 3 → ℚ) (i : Fin 3) : Option (ℚ × ℚ) :=
  let inside := longMolWindow boxSide pbc i
  if pbc i then some inside
  else if hasInitial then
    subboxWallHist inside.1 inside.2 longMolMaxSide (xs i) (midIdx i)
  else
    some (subboxWallUniform inside.1 inside.2 longMolMaxSide (u i))

/-- The error raised by `_pack_and_fix` when the engine output is missing:
`IOError('Packmol raises an error. Check the <basename>.log file.')`. -/
inductive PackError where
  | engineFailure (logFile : String)
deriving DecidableEq

/-- `_pack_and_fix` up to the output-file check.  `fsAfterCall f = true`
means file `f` exists after the blocking `subprocess.call`; `exitCode` is
the value returned by `subprocess.call`, which the source discards.  The
second component counts engine invocations performed by this call. -/
def pack_and_fix (fsAfterCall : String → Bool) (exitCode : ℤ)
    (boxInpBasename boxOutBasename : String) : Except PackError Unit × ℕ :=
  let _ := exitCode
  if fsAfterCall (boxOutBasename ++ ".pdb") then (Except.ok (), 1)
  else (Except.error (PackError.engineFailure (boxInpBasename ++ ".log")), 1)

/-- One `_pack_and_fix` call as issued by `run_packing`: input basename,
output basename (`box_out_basename`, default `'final'`), and the `move`
flag (default `true`). -/
structure Round where
  inpBasename : String
  outBasename : String
  move : Bool
deriving DecidableEq

/-- The exact sequence of `_pack_and_fix` calls `run_packing` makes:
`'box_first'` with defaults, then `n_large - 1` times `'box_one_more'`
with defaults, then `'box'` with `box_out_basename='boxed'`, `move=False`. -/
def runPackingRounds (nLarge : ℕ) : List Round :=
  ⟨"box_first", "final", true⟩ ::
    (List.replicate (nLarge - 1) ⟨"box_one_more", "final", true⟩ ++
      [⟨"box", "boxed", false⟩])

/-- The state of the scratch `box.inp` handle `self._inp_file`. -/
structure FileState where
  inpFileOpen : Bool
deriving DecidableEq

/-- Runs the remaining rounds.  `eng i = true` means the engine produced
its declared output file in round `i`.  On a missing output,
`_pack_and_fix` raises and `run_packing` has no `try`/`finally`, so the
exception carries the file state unchanged out of the whole run. -/
def packRoundsFrom (eng : ℕ → Bool) :
    List Round → ℕ → FileState → Except (PackError × FileState) FileState
  | [], _, st => Except.ok st
  | r :: rs, i, st =>
    if eng i then packRoundsFrom eng rs (i + 1) st
    else Except.error (PackError.engineFailure (r.inpBasename ++ ".log"), st)

/-- `run_packing` viewed through the lifecycle of `self._inp_file`:
`open('box.inp', 'w+')` before the first round, then the round sequence,
then `self._inp_file.close()` — which is reached only when no round
raised. -/
def run_packing (nLarge : ℕ) (eng : ℕ → Bool) :
    Except (PackError × FileState) FileState :=
  match packRoundsFrom eng (runPackingRounds nLarge) 0 ⟨true⟩ with
  | Except.ok _ => Except.ok ⟨false⟩
  | Except.error e => Except.error e

/-- `list.pop(0)` as used by `write_box_first_inp` and
`write_box_one_more_large_inp`: removes and returns the front entry;
raises (here `none`) on an empty list. -/
def popFirstEntry {α : Type} : List α → Option (α × List α)
  | [] => none
  | x :: xs => some (x, xs)

/-- `n` successive packing rounds, each performing one `pop(0)` on
`self._large_mol_list`. -/
def consumeRounds {α : Type} : ℕ → List α → Option (List α)
  | 0, q => some q
  | n + 1, q =>
    match popFirstEntry q with
    | none => none
    | some (_, rest) => consumeRounds n rest

/-- The numpy wrap used by `pack_into_box` of the structure library
(collaborator contract of the spec: wrap atoms into the unit cell), per
axis: the representative of `x` modulo `L` in `[0, L)`. -/
def fmod (x L : ℚ) : ℚ := x - L * ⌊x / L⌋

/-- The random displacement `maximum_displ * np.random.random(3)` of
`move_and_add_box`, per axis, with `maximum_displ = box_side * pbc`. -/
def displacement (boxSide : Fin 3 → ℚ) (pbc : Fin 3 → Bool) (u : Fin 3 → ℚ)
    (i : Fin 3) : ℚ :=
  boxSide i * pbcVal (pbc i) * u i

/-- One coordinate of one atom after `move_and_add_box`: when `move` is
set, the atom is translated by the random displacement and then wrapped
into the box by `pack_into_box`; otherwise positions are untouched. -/
def move_and_add_box (boxSide : Fin 3 → ℚ) (pbc : Fin 3 → Bool) (move : Bool)
    (u : Fin 3 → ℚ) (pos : Fin 3 → ℚ) (i : Fin 3) : ℚ :=
  if move then fmod (pos i + displacement boxSide pbc u i) (boxSide i)
  else pos i

/-- The errors `_unify_input_info` can raise (an `IOError` or
`ValueError`, all raised during `__init__`, before any packing). -/
inductive ConfigError where
  | noLargeMolecules
  | noBox
  | badBoxLength
  | badPbc
deriving DecidableEq

/-- The raw JSON configuration as far as `_unify_input_info` inspects it:
presence of the `large_molecules` key, presence and value of `box`,
presence of `pbc` together with whether its value is a list and, if so,
its integer entries. -/
structure RawConfig where
  hasLargeMolecules : Bool
  hasBox : Bool
  box : List ℚ
  hasPbc : Bool
  pbcIsList : Bool
  pbc : List ℤ
deriving DecidableEq

/-- `_unify_input_info`: reject a missing `large_molecules` key; reject a
missing or empty `box`; expand a length-1 box by `box *= 3`; reject any
other length that is not 3; default `pbc` to `[1, 1, 1]`; reject a `pbc`
that is not a list or has an entry outside `{0, 1}`.  Returns the
unified box and pbc on success. -/
def unify_input_info (cfg : RawConfig) : Except ConfigError (List ℚ × List ℤ) :=
  if cfg.hasLargeMolecules = false then Except.error ConfigError.noLargeMolecules
  else if cfg.hasBox = false ∨ cfg.box = [] then Except.error ConfigError.noBox
  else
    let box := if cfg.box.length = 1 then cfg.box ++ cfg.box ++ cfg.box else cfg.box
    if box.length ≠ 3 then Except.error ConfigError.badBoxLength
    else
      let pbcIsList := if cfg.hasPbc then cfg.pbcIsList else true
      let pbc := if cfg.hasPbc then cfg.pbc else [1, 1, 1]
      if pbcIsList = false ∨ pbc.any (fun v => decide (v ≠ 0 ∧ v ≠ 1)) then
        Except.error ConfigError.badPbc
      else Except.ok (box, pbc)

/-- Concrete non-uniform histogram used by the C3 witness: one count in
bin 0, zero elsewhere. -/
def exCounts : Fin 50 → ℕ := fun k => if k.val = 0 then 1 else 0

/-- `get_rotation_matrix`: Rodrigues' rotation matrix about the
normalised axis `vector/np.sqrt(sum(vector**2))` by `angle`. -/
noncomputable def get_rotation_matrix (vector : Fin 3 → ℝ) (angle : ℝ) :
    Matrix (Fin 3) (Fin 3) ℝ :=
  let n := Real.sqrt (vector 0 ^ 2 + vector 1 ^ 2 + vector 2 ^ 2)
  let x := vector 0 / n
  let y := vector 1 / n
  let z := vector 2 / n
  let c := Real.cos angle
  let s := Real.sin angle
  Matrix.of
    ![![c + x ^ 2 * (1 - c), x * y * (1 - c) - z * s, x * z * (1 - c) + y * s],
      ![y * x * (1 - c) + z * s, c + y ^ 2 * (1 - c), y * z * (1 - c) - x * s],
      ![z * x * (1 - c) - y * s, z * y * (1 - c) + x * s, c + z ^ 2 * (1 - c)]]

/-- The box centre `box_side * [1/2, 1/2, 1/2]` that `rotate_box`
recentres on. -/
noncomputable def boxCenter (boxSide : Fin 3 → ℝ) : Fin 3 → ℝ :=
  fun i => boxSide i * (1 / 2)

/-- One atom position under `rotate_box`: recentre on the box midpoint,
apply the rotation matrix (`rot.dot(positions.T).T` is row-wise
matrix-vector application), recentre back. -/
noncomputable def rotatePoint (boxSide ax : Fin 3 → ℝ) (angle : ℝ)
    (p : Fin 3 → ℝ) : Fin 3 → ℝ :=
  fun i =>
    (get_rotation_matrix ax angle).mulVec (fun j => p j - boxCenter boxSide j) i
      + boxCenter boxSide i

/-- `rotate_box` applied to a whole position array. -/
noncomputable def rotate_box (boxSide : Fin 3 → ℝ)
    (positions : List (Fin 3 → ℝ)) (ax : Fin 3 → ℝ) (angle : ℝ) :
    List (Fin 3 → ℝ) :=
  positions.map (rotatePoint boxSide ax angle)

/-- Squared Euclidean distance between two atom positions. -/
noncomputable def sqDist (p q : Fin 3 → ℝ) : ℝ :=
  (p 0 - q 0) ^ 2 + (p 1 - q 1) ^ 2 + (p 2 - q 2) ^ 2

/-- BoxGeometry margins (C4): on a periodic axis the solvent offsets are
`+1` (low) and `-1` (high); on a wall axis they are `+2`/`-2`; the
large-molecule window carries only the wall margins (`+2`/`-2` on wall
axes, `0` on periodic axes) and never the periodic shrink. -/
theorem init_offsets_margins (boxSide : Fin 3 → ℚ) (pbc : Fin 3 → Bool) (i : Fin 3) :
    solvent_box_offsets_low pbc i = (if pbc i then 1 else 2) ∧
    solvent_box_offsets_high pbc i = (if pbc i then -1 else -2) ∧
    long_mol_box_offsets_low pbc i = (if pbc i then 0 else 2) ∧
    long_mol_box_offsets_high pbc i = (if pbc i then 0 else -2) ∧
    solventWindow boxSide pbc i =
      ((if pbc i then 1 else 2), boxSide i + (if pbc i then -1 else -2)) ∧
    longMolWindow boxSide pbc i =
      ((if pbc i then 0 else 2), boxSide i + (if pbc i then 0 else -2)) := by
  cases h : pbc i <;>
    simp [solvent_box_offsets_low, solvent_box_offsets_high,
      long_mol_box_offsets_low, long_mol_box_offsets_high, solventWindow,
      longMolWindow, pbcVal, notPbcVal, h]

/-- EngineFailure discipline (C2): `_pack_and_fix` fails if and only if
the declared output file `box_out_basename + '.pdb'` is absent after the
engine invocation; the failure names the round's log file; the result is
independent of the subprocess exit code; the engine is invoked exactly
once (no retry); and at the orchestrator level a failing round aborts the
remaining rounds immediately. -/
theorem pack_and_fix_engine_failure (fsAfterCall : String → Bool) (exitCode : ℤ)
    (inpBase outBase : String) :
    ((pack_and_fix fsAfterCall exitCode inpBase outBase).1 =
        Except.error (PackError.engineFailure (inpBase ++ ".log")) ↔
      fsAfterCall (outBase ++ ".pdb") = false) ∧
    (∀ exitCode' : ℤ, pack_and_fix fsAfterCall exitCode inpBase outBase =
      pack_and_fix fsAfterCall exitCode' inpBase outBase) ∧
    (pack_and_fix fsAfterCall exitCode inpBase outBase).2 = 1 ∧
    (∀ (eng : ℕ → Bool) (r : Round) (rs : List Round) (i : ℕ) (st : FileState),
      packRoundsFrom eng (r :: rs) i st =
        if eng i then packRoundsFrom eng rs (i + 1) st
        else Except.error (PackError.engineFailure (r.inpBasename ++ ".log"), st)) := by
  refine ⟨?_, fun _ => rfl, ?_, fun eng r rs i st => rfl⟩
  · unfold pack_and_fix
    cases h : fsAfterCall (outBase ++ ".pdb") <;> simp [h]
  · unfold pack_and_fix
    cases h : fsAfterCall (outBase ++ ".pdb") <;> simp [h]

/-- Helper: the replicated middle rounds all have `move=true`, so filtering
for non-moving rounds leaves nothing. -/
theorem filter_not_move_replicate (k : ℕ) :
    ((List.replicate k (⟨"box_one_more", "final", true⟩ : Round)).filter
      fun r => !r.move) = [] := by
  induction k with
  | zero => rfl
  | succ n ih => simp [List.replicate_succ, List.filter_cons, ih]

/-- C5 counterexample: with two large molecules the run makes three
`_pack_and_fix` calls; `move=false` occurs in exactly one of them (the
final solvated box), not two, and the very first large-molecule placement
is invoked with `move=true`. -/
theorem run_packing_move_false_cex :
    ((runPackingRounds 2).filter fun r => !r.move).length ≠ 2 ∧
    (runPackingRounds 2).head?.map Round.move = some true ∧
    ((runPackingRounds 2).filter fun r => !r.move) = [⟨"box", "boxed", false⟩] := by
  decide

/-- C5 amended: for every number of large molecules, the rigid-transform
step runs with `move=false` for exactly one round — the final solvated
box — while the first large-molecule placement (like every other large
round) runs with `move=true`. -/
theorem run_packing_move_false_only_final (nLarge : ℕ) :
    ((runPackingRounds nLarge).filter fun r => !r.move) =
      [⟨"box", "boxed", false⟩] ∧
    (runPackingRounds nLarge).head? = some ⟨"box_first", "final", true⟩ ∧
    (runPackingRounds nLarge).getLast? = some ⟨"box", "boxed", false⟩ := by
  refine ⟨?_, rfl, ?_⟩
  · simp [runPackingRounds, List.filter_append, List.filter_cons,
      filter_not_move_replicate]
  · simp only [runPackingRounds, ← List.cons_append, List.getLast?_concat]

/-- C6: validation accepts a two-flag `pbc` list (its pbc check never
inspects the list length), returning success on a configuration that
violates the documented three-flag invariant; a valid length-1 box is
still expanded to three equal sides with `pbc` defaulted. -/
theorem unify_input_info_accepts_short_pbc :
    unify_input_info ⟨true, true, [10, 10, 10], true, true, [1, 1]⟩ =
      Except.ok ([10, 10, 10], [1, 1]) ∧
    unify_input_info ⟨true, true, [7], false, true, []⟩ =
      Except.ok ([7, 7, 7], [1, 1, 1]) :=
  ⟨rfl, rfl⟩

/-- Helper: every replicated middle round is named `box_one_more`. -/
theorem filter_one_more_replicate (k : ℕ) :
    ((List.replicate k (⟨"box_one_more", "final", true⟩ : Round)).filter
      fun r => r.inpBasename == "box_one_more") =
      List.replicate k ⟨"box_one_more", "final", true⟩ := by
  induction k with
  | zero => rfl
  | succ n ih => simp [List.replicate_succ, List.filter_cons, ih]

/-- Helper: popping the front entry once per round consumes an initial
segment of the queue. -/
theorem consumeRounds_eq_drop {α : Type} (n : ℕ) (queue : List α)
    (hn : n ≤ queue.length) : consumeRounds n queue = some (queue.drop n) := by
  induction n generalizing queue with
  | zero => rfl
  | succ m ih =>
    cases queue with
    | nil => exact absurd hn (by simp)
    | cons x xs =>
      simpa [consumeRounds, popFirstEntry] using ih xs (Nat.le_of_succ_le_succ hn)

/-- MoleculeQueue consumption (C8): the queue is consumed strictly
front-to-back, one entry per round — after `n` rounds the remaining queue
is exactly the original minus its first `n` entries, of length
`initial_length - n`; after the first round plus the `n_large - 1` loop
rounds the queue is empty; and run_packing's loop contributes exactly
`n_large - 1` `box_one_more` rounds. -/
theorem queue_consumed_front_to_back {α : Type} (queue : List α) (n : ℕ)
    (hn : n ≤ queue.length) (h1 : 1 ≤ queue.length) :
    consumeRounds n queue = some (queue.drop n) ∧
    (queue.drop n).length = queue.length - n ∧
    consumeRounds (1 + (queue.length - 1)) queue = some [] ∧
    ((runPackingRounds queue.length).filter
      fun r => r.inpBasename == "box_one_more").length = queue.length - 1 := by
  refine ⟨consumeRounds_eq_drop n queue hn, List.length_drop n queue, ?_, ?_⟩
  · have hlen : 1 + (queue.length - 1) = queue.length := by omega
    rw [hlen, consumeRounds_eq_drop queue.length queue (le_refl _), List.drop_length]
  · simp [runPackingRounds, List.filter_append, List.filter_cons,
      filter_one_more_replicate]

/-- C8 witness: a concrete three-entry queue, two rounds in. -/
theorem queue_consumed_front_to_back_witness :
    (2 ≤ ([0, 1, 2] : List ℕ).length ∧ 1 ≤ ([0, 1, 2] : List ℕ).length) ∧
    (consumeRounds 2 [0, 1, 2] = some (([0, 1, 2] : List ℕ).drop 2) ∧
      (([0, 1, 2] : List ℕ).drop 2).length = ([0, 1, 2] : List ℕ).length - 2 ∧
      consumeRounds (1 + (([0, 1, 2] : List ℕ).length - 1)) [0, 1, 2] =
        some ([] : List ℕ) ∧
      ((runPackingRounds ([0, 1, 2] : List ℕ).length).filter
        fun r => r.inpBasename == "box_one_more").length =
        ([0, 1, 2] : List ℕ).length - 1) :=
  ⟨⟨by decide, by decide⟩,
    queue_consumed_front_to_back [0, 1, 2] 2 (by decide) (by decide)⟩

/-- C9 counterexample: when the engine fails in the very first round, the
run terminates with the engine-failure error while the scratch input
handle is still open — `run_packing` has no cleanup on the failure path. -/
theorem run_packing_handle_leak_cex :
    run_packing 1 (fun _ => false) =
      Except.error (PackError.engineFailure "box_first.log", ⟨true⟩) ∧
    (FileState.mk true).inpFileOpen = true :=
  ⟨rfl, rfl⟩

/-- Helper: `packRoundsFrom` raises with the file state unchanged. -/
theorem packRoundsFrom_error_state (eng : ℕ → Bool) (rs : List Round) (i : ℕ)
    (st : FileState) (e : PackError) (st' : FileState)
    (h : packRoundsFrom eng rs i st = Except.error (e, st')) : st' = st := by
  induction rs generalizing i with
  | nil => exact absurd h (by simp [packRoundsFrom])
  | cons r rest ih =>
    rw [packRoundsFrom] at h
    by_cases he : eng i
    · rw [if_pos he] at h
      exact ih (i + 1) h
    · rw [if_neg he] at h
      injection h with h
      exact (congrArg Prod.snd h).symm

/-- C9 amended: the scratch `box.inp` handle, opened once at the start of
the run, is closed on the successful exit path but left open when a
packing round fails with the engine-failure error (the source has no
`try`/`finally` around the round loop). -/
theorem run_packing_handle_paths (nLarge : ℕ) (eng : ℕ → Bool) :
    (∀ st, run_packing nLarge eng = Except.ok st → st.inpFileOpen = false) ∧
    (∀ e st, run_packing nLarge eng = Except.error (e, st) →
      st.inpFileOpen = true) := by
  constructor
  · intro st h
    unfold run_packing at h
    cases hp : packRoundsFrom eng (runPackingRounds nLarge) 0 ⟨true⟩ with
    | ok s => rw [hp] at h; injection h with h; rw [← h]
    | error p => rw [hp] at h; cases h
  · intro e st h
    unfold run_packing at h
    cases hp : packRoundsFrom eng (runPackingRounds nLarge) 0 ⟨true⟩ with
    | ok s => rw [hp] at h; cases h
    | error p =>
      rw [hp] at h
      injection h with h
      rw [h] at hp
      rw [packRoundsFrom_error_state eng (runPackingRounds nLarge) 0 ⟨true⟩ e st hp]

/-- C9 witness: a fully successful two-round run ends with the handle
closed. -/
theorem run_packing_handle_paths_witness :
    run_packing 1 (fun _ => true) = Except.ok ⟨false⟩ ∧
    (FileState.mk false).inpFileOpen = false :=
  ⟨rfl, (run_packing_handle_paths 1 (fun _ => true)).1 ⟨false⟩ rfl⟩


/-- Helper: on a wall axis with a prior assembly file, the sampler runs
the histogram branch on the insertion window. -/
theorem random_subbox_wall_hist_eq (boxSide : Fin 3 → ℚ) (pbc : Fin 3 → Bool)
    (M : ℚ) (xs : Fin 3 → List ℚ) (midIdx : Fin 3 → Fin 50) (u : Fin 3 → ℚ)
    (i : Fin 3) (hw : pbc i = false) :
    random_long_mol_subbox boxSide pbc M true xs midIdx u i =
      subboxWallHist (longMolWindow boxSide pbc i).1
        (longMolWindow boxSide pbc i).2 M (xs i) (midIdx i) := by
  unfold random_long_mol_subbox
  rw [hw]
  simp

/-- Helper: on a wall axis with no prior assembly file, the sampler runs
the uniform branch on the insertion window. -/
theorem random_subbox_wall_uniform_eq (boxSide : Fin 3 → ℚ) (pbc : Fin 3 → Bool)
    (M : ℚ) (xs : Fin 3 → List ℚ) (midIdx : Fin 3 → Fin 50) (u : Fin 3 → ℚ)
    (i : Fin 3) (hw : pbc i = false) :
    random_long_mol_subbox boxSide pbc M false xs midIdx u i =
      some (subboxWallUniform (longMolWindow boxSide pbc i).1
        (longMolWindow boxSide pbc i).2 M (u i)) := by
  unfold random_long_mol_subbox
  rw [hw]
  simp

/-- Helper: the histogram branch clamps the right end below `high`
unconditionally, and the left end above `low` when the molecule fits. -/
theorem subboxWallHist_bounds (low high M : ℚ) (xs : List ℚ) (midIdx : Fin 50)
    (r : ℚ × ℚ) (hr : subboxWallHist low high M xs midIdx = some r) :
    r.2 ≤ high ∧ (M ≤ high - low → low ≤ r.1) := by
  unfold subboxWallHist at hr
  cases hnp : normalizedProbs (histCounts xs low high) with
  | none => rw [hnp] at hr; cases hr
  | some p =>
    rw [hnp] at hr
    simp only [Option.some.injEq] at hr
    obtain ⟨a, b⟩ := r
    rw [Prod.mk.injEq] at hr
    obtain ⟨h1, h2⟩ := hr
    constructor
    · show b ≤ high
      have hm := min_le_right
        (max low (edgeMid low high midIdx.val - M / 2)) (high - M)
      rw [← h2]
      linarith
    · intro hM
      show low ≤ a
      rw [← h1]
      exact le_min (le_max_left _ _) (by linarith)

/-- C1 counterexample: on the wall axis of a `pbc=[1,1,0]`, `40`-sided box
with a molecule of extent `30`, the branch taken when no prior assembly
file exists draws the start uniformly (`u = 9/10` here) and performs no
clipping at all: the returned sub-interval ends at `322/5 = 64.4`, beyond
the window's upper bound `38 = box_side - 2`. -/
theorem random_subbox_uniform_branch_cex :
    random_long_mol_subbox (fun _ => 40) ![true, true, false] 30 false
        (fun _ => []) (fun _ => 0) (fun _ => 9 / 10) 2 =
      some (172 / 5, 322 / 5) ∧
    (longMolWindow (fun _ => 40) ![true, true, false] 2).2 < 322 / 5 := by
  have hp : (![true, true, false] : Fin 3 → Bool) 2 = false := by decide
  have hwv : longMolWindow (fun _ => (40 : ℚ)) ![true, true, false] 2 = (2, 38) := by
    norm_num [longMolWindow, long_mol_box_offsets_low, long_mol_box_offsets_high,
      notPbcVal, hp]
  constructor
  · rw [random_subbox_wall_uniform_eq (fun _ => 40) ![true, true, false] 30
      (fun _ => []) (fun _ => 0) (fun _ => 9 / 10) 2 hp, hwv]
    norm_num [subboxWallUniform]
  · rw [hwv]
    norm_num

/-- C1 amended: in the histogram branch (prior assembly file present),
for every histogram shape, sampled bin midpoint and molecule extent, the
sub-interval's upper bound never exceeds the window's upper bound
(`box_side - 2` on the wall axis), and whenever the molecule extent is at
most the window width the sub-interval is fully contained in the window.
(The branch with no prior assembly file does not clip, as the
counterexample shows.) -/
theorem random_subbox_hist_branch_in_window (boxSide : Fin 3 → ℚ)
    (pbc : Fin 3 → Bool) (longMolMaxSide : ℚ) (xs : Fin 3 → List ℚ)
    (midIdx : Fin 3 → Fin 50) (u : Fin 3 → ℚ) (i : Fin 3)
    (hw : pbc i = false) (r : ℚ × ℚ)
    (hr : random_long_mol_subbox boxSide pbc longMolMaxSide true xs midIdx u i =
      some r) :
    r.2 ≤ (longMolWindow boxSide pbc i).2 ∧
    (longMolMaxSide ≤
        (longMolWindow boxSide pbc i).2 - (longMolWindow boxSide pbc i).1 →
      (longMolWindow boxSide pbc i).1 ≤ r.1 ∧
      r.2 ≤ (longMolWindow boxSide pbc i).2) := by
  rw [random_subbox_wall_hist_eq boxSide pbc longMolMaxSide xs midIdx u i hw] at hr
  obtain ⟨h2, h1⟩ := subboxWallHist_bounds _ _ _ _ _ r hr
  exact ⟨h2, fun hM => ⟨h1 hM, h2⟩⟩

/-- Helper: the atom at `3` falls in bin 1 of the `(2, 38)` histogram. -/
theorem inBin_bin1_three : inBin 2 38 3 1 = true := by
  norm_num [inBin, binEdge]

/-- Helper: the atom at `3` does not fall in bin 0 of the `(2, 38)`
histogram. -/
theorem inBin_bin0_three : inBin 2 38 3 0 = false := by
  norm_num [inBin, binEdge]

/-- Helper: concrete evaluation of the histogram branch for the C1
witness: one atom at `3`, molecule extent `10`, sampled midpoint index
`0` on the wall axis of a `pbc=[1,1,0]`, `40`-sided box yields the
sub-interval `(2, 12)`. -/
theorem random_subbox_hist_eval_concrete :
    random_long_mol_subbox (fun _ => 40) ![true, true, false] 10 true
      (fun _ => [3]) (fun _ => 0) (fun _ => 0) 2 = some (2, 12) := by
  have hp : (![true, true, false] : Fin 3 → Bool) 2 = false := by decide
  have hwv : longMolWindow (fun _ => (40 : ℚ)) ![true, true, false] 2 = (2, 38) := by
    norm_num [longMolWindow, long_mol_box_offsets_low, long_mol_box_offsets_high,
      notPbcVal, hp]
  rw [random_subbox_wall_hist_eq _ _ _ _ _ _ _ hp, hwv]
  have hc1 : histCounts [3] 2 38 1 = 1 := by
    simp [histCounts, List.filter_cons, List.filter_nil, inBin_bin1_three]
  have hc0 : histCounts [3] 2 38 0 = 0 := by
    simp [histCounts, List.filter_cons, List.filter_nil, inBin_bin0_three]
  have hmax : 1 ≤ maxCount (histCounts [3] 2 38) := by
    rw [← hc1]
    exact Finset.le_sup (Finset.mem_univ _)
  have hinv : 1 ≤ invertedCounts (histCounts [3] 2 38) 0 := by
    unfold invertedCounts
    rw [hc0]
    omega
  have hle : invertedCounts (histCounts [3] 2 38) 0 ≤
      ∑ k, invertedCounts (histCounts [3] 2 38) k :=
    Finset.single_le_sum (fun k _ => Nat.zero_le _) (Finset.mem_univ 0)
  have hs : (∑ k, invertedCounts (histCounts [3] 2 38) k) ≠ 0 := by omega
  unfold subboxWallHist normalizedProbs
  rw [if_neg hs]
  norm_num [edgeMid, binEdge, max_def, min_def]

/-- C1 witness: the amended containment at the concrete histogram-branch
call evaluated above, inside the window `(2, 38)`. -/
theorem random_subbox_hist_branch_in_window_witness :
    (![true, true, false] : Fin 3 → Bool) 2 = false ∧
    random_long_mol_subbox (fun _ => 40) ![true, true, false] 10 true
        (fun _ => [3]) (fun _ => 0) (fun _ => 0) 2 = some (2, 12) ∧
    (((2 : ℚ), (12 : ℚ)).2 ≤ (longMolWindow (fun _ => 40) ![true, true, false] 2).2 ∧
      (10 ≤ (longMolWindow (fun _ => 40) ![true, true, false] 2).2 -
          (longMolWindow (fun _ => 40) ![true, true, false] 2).1 →
        (longMolWindow (fun _ => 40) ![true, true, false] 2).1 ≤
          ((2 : ℚ), (12 : ℚ)).1 ∧
        ((2 : ℚ), (12 : ℚ)).2 ≤
          (longMolWindow (fun _ => 40) ![true, true, false] 2).2)) :=
  ⟨by decide, random_subbox_hist_eval_concrete,
    random_subbox_hist_branch_in_window (fun _ => 40) ![true, true, false] 10
      (fun _ => [3]) (fun _ => 0) (fun _ => 0) 2 (by decide) (2, 12)
      random_subbox_hist_eval_concrete⟩

/-- Helper: every bin edge stays at or below the histogram range's upper
bound. -/
theorem binEdge_le_high (low high : ℚ) (h : low ≤ high) (k : ℕ) (hk : k ≤ 50) :
    binEdge low high k ≤ high := by
  unfold binEdge
  have hk50 : (k : ℚ) ≤ 50 := by exact_mod_cast hk
  have hd : 0 ≤ high - low := by linarith
  have hm : (k : ℚ) * (high - low) ≤ 50 * (high - low) :=
    mul_le_mul_of_nonneg_right hk50 hd
  linarith

/-- Helper: a sample beyond the histogram range lands in no bin. -/
theorem inBin_false_of_gt (low high x : ℚ) (hlh : low ≤ high) (hx : high < x)
    (k : Fin 50) : inBin low high x k = false := by
  unfold inBin
  by_cases hk : k.val = 49
  · rw [if_pos hk]
    have h50 := binEdge_le_high low high hlh 50 (le_refl 50)
    simp only [decide_eq_false_iff_not, not_and, not_le]
    intro _
    linarith
  · rw [if_neg hk]
    have hk1 : k.val + 1 ≤ 50 := by omega
    have hb := binEdge_le_high low high hlh (k.val + 1) hk1
    simp only [decide_eq_false_iff_not, not_and, not_lt]
    intro _
    linarith

/-- Helper: a single atom beyond the histogram range produces all-zero
counts. -/
theorem histCounts_zero_of_gt (low high x : ℚ) (hlh : low ≤ high) (hx : high < x)
    (k : Fin 50) : histCounts [x] low high k = 0 := by
  simp [histCounts, List.filter_cons, List.filter_nil,
    inBin_false_of_gt low high x hlh hx k]

/-- C3 counterexample: an assembly whose only atom projects outside the
window produces an all-zero histogram; inverting (`max - count`, all
zero) and normalising then divides by zero, so `np.random.choice`
receives invalid probabilities and the sampling step fails (`none`)
instead of degenerating to uniform sampling. -/
theorem random_subbox_allzero_hist_cex :
    histCounts [50] 2 38 = (fun _ => 0) ∧
    normalizedProbs (histCounts [50] 2 38) = none ∧
    random_long_mol_subbox (fun _ => 40) ![true, true, false] 10 true
        (fun _ => [50]) (fun _ => 0) (fun _ => 0) 2 = none := by
  have hzero : histCounts [50] 2 38 = (fun _ => 0) :=
    funext fun k => histCounts_zero_of_gt 2 38 50 (by norm_num) (by norm_num) k
  have hmax0 : maxCount (fun _ => (0 : ℕ)) = 0 :=
    Nat.le_zero.mp (Finset.sup_le fun k _ => Nat.le_refl 0)
  have hs0 : (∑ k, invertedCounts (fun _ => (0 : ℕ)) k) = 0 := by
    simp [invertedCounts, hmax0]
  have hnp : normalizedProbs (histCounts [50] 2 38) = none := by
    rw [hzero]
    simp [normalizedProbs, hs0]
  have hp : (![true, true, false] : Fin 3 → Bool) 2 = false := by decide
  have hwv : longMolWindow (fun _ => (40 : ℚ)) ![true, true, false] 2 = (2, 38) := by
    norm_num [longMolWindow, long_mol_box_offsets_low, long_mol_box_offsets_high,
      notPbcVal, hp]
  refine ⟨hzero, hnp, ?_⟩
  rw [random_subbox_wall_hist_eq _ _ _ _ _ _ _ hp, hwv]
  unfold subboxWallHist
  rw [hnp]

/-- C3 amended: inverting and normalising the bin counts fails (yielding
invalid probabilities, so the sampling step fails) exactly when the
histogram is uniform — in particular when it is all-zero; for every
non-uniform histogram it yields a valid probability distribution
(non-negative entries summing to 1). -/
theorem normalizedProbs_valid_iff_nonuniform (counts : Fin 50 → ℕ) :
    (normalizedProbs counts = none ↔ ∀ k, counts k = counts 0) ∧
    (normalizedProbs counts ≠ none →
      ∃ p, normalizedProbs counts = some p ∧
        (∀ k, 0 ≤ p k) ∧ ∑ k, p k = 1) := by
  have hcsup : ∀ k, counts k ≤ maxCount counts :=
    fun k => Finset.le_sup (Finset.mem_univ k)
  have hkey : (∑ k, invertedCounts counts k) = 0 ↔ ∀ k, counts k = counts 0 := by
    rw [Finset.sum_eq_zero_iff]
    constructor
    · intro h k
      have h0 := h 0 (Finset.mem_univ 0)
      have hk := h k (Finset.mem_univ k)
      unfold invertedCounts at h0 hk
      have hs0 := hcsup 0
      have hsk := hcsup k
      omega
    · intro h k _
      unfold invertedCounts
      have hsle : maxCount counts ≤ counts 0 := by
        apply Finset.sup_le
        intro j _
        rw [h j]
      have hk := h k
      omega
  have hnone : normalizedProbs counts = none ↔
      (∑ k, invertedCounts counts k) = 0 := by
    by_cases hs : (∑ k, invertedCounts counts k) = 0
    · simp [normalizedProbs, hs]
    · simp [normalizedProbs, hs]
  refine ⟨hnone.trans hkey, ?_⟩
  intro hne
  have hs : (∑ k, invertedCounts counts k) ≠ 0 := fun h => hne (hnone.mpr h)
  refine ⟨fun k => (invertedCounts counts k : ℚ) /
      ((∑ j, invertedCounts counts j : ℕ) : ℚ), ?_, ?_, ?_⟩
  · unfold normalizedProbs
    rw [if_neg hs]
  · intro k
    exact div_nonneg (Nat.cast_nonneg _) (Nat.cast_nonneg _)
  · rw [← Finset.sum_div, ← Nat.cast_sum]
    exact div_self (by exact_mod_cast hs)

/-- Helper: the witness histogram is non-uniform, so normalisation does
not fail. -/
theorem normalizedProbs_exCounts_ne : normalizedProbs exCounts ≠ none := by
  have hmax : 1 ≤ maxCount exCounts := by
    have h0 : exCounts 0 = 1 := rfl
    rw [← h0]
    exact Finset.le_sup (Finset.mem_univ _)
  have h1 : exCounts 1 = 0 := rfl
  have hinv : 1 ≤ invertedCounts exCounts 1 := by
    unfold invertedCounts
    rw [h1]
    omega
  have hle : invertedCounts exCounts 1 ≤ ∑ k, invertedCounts exCounts k :=
    Finset.single_le_sum (fun k _ => Nat.zero_le _) (Finset.mem_univ 1)
  have hs : (∑ k, invertedCounts exCounts k) ≠ 0 := by omega
  unfold normalizedProbs
  rw [if_neg hs]
  simp

/-- C3 witness: the amended theorem instantiated at the concrete
non-uniform histogram. -/
theorem normalizedProbs_valid_iff_nonuniform_witness :
    normalizedProbs exCounts ≠ none ∧
    ∃ p, normalizedProbs exCounts = some p ∧
      (∀ k, 0 ≤ p k) ∧ ∑ k, p k = 1 :=
  ⟨normalizedProbs_exCounts_ne,
    (normalizedProbs_valid_iff_nonuniform exCounts).2 normalizedProbs_exCounts_ne⟩

/-- Helper: the wrap representative lies in `[0, L)` for positive `L`. -/
theorem fmod_nonneg_lt (x L : ℚ) (hL : 0 < L) : 0 ≤ fmod x L ∧ fmod x L < L := by
  unfold fmod
  have h1 : (⌊x / L⌋ : ℚ) ≤ x / L := Int.floor_le _
  have h2 : x / L < (⌊x / L⌋ : ℚ) + 1 := Int.lt_floor_add_one _
  have h1' : (⌊x / L⌋ : ℚ) * L ≤ x := (le_div_iff₀ hL).mp h1
  have h2' : x < ((⌊x / L⌋ : ℚ) + 1) * L := (div_lt_iff₀ hL).mp h2
  constructor
  · nlinarith
  · nlinarith

/-- RigidTransform with move=true (C7): on a wall axis the random
displacement is exactly zero (its range is `box_side * pbc = 0`), and on
a periodic axis the displaced and wrapped coordinate lies in
`[0, box_side)`. -/
theorem move_and_add_box_wall_periodic (boxSide : Fin 3 → ℚ) (pbc : Fin 3 → Bool)
    (u pos : Fin 3 → ℚ) (i : Fin 3) (hL : 0 < boxSide i) :
    (pbc i = false → displacement boxSide pbc u i = 0) ∧
    (pbc i = true → 0 ≤ move_and_add_box boxSide pbc true u pos i ∧
      move_and_add_box boxSide pbc true u pos i < boxSide i) := by
  constructor
  · intro hw
    simp [displacement, pbcVal, hw]
  · intro _
    have h := fmod_nonneg_lt (pos i + displacement boxSide pbc u i) (boxSide i) hL
    simpa [move_and_add_box] using h

/-- C7 witness: concrete displaced atom on a `pbc=[1,1,0]`, `40`-sided
box. -/
theorem move_and_add_box_wall_periodic_witness :
    (0 : ℚ) < (fun _ => (40 : ℚ)) 2 ∧
    (((![true, true, false] : Fin 3 → Bool) 2 = false →
        displacement (fun _ => 40) ![true, true, false] (fun _ => 1 / 2) 2 = 0) ∧
      ((![true, true, false] : Fin 3 → Bool) 2 = true →
        0 ≤ move_and_add_box (fun _ => 40) ![true, true, false] true
            (fun _ => 1 / 2) (fun _ => 100) 2 ∧
        move_and_add_box (fun _ => 40) ![true, true, false] true
            (fun _ => 1 / 2) (fun _ => 100) 2 < (fun _ => (40 : ℚ)) 2)) :=
  ⟨by norm_num,
    move_and_add_box_wall_periodic (fun _ => 40) ![true, true, false]
      (fun _ => 1 / 2) (fun _ => 100) 2 (by norm_num)⟩

/-- Helper: the Rodrigues matrix built from a unit axis preserves the
Euclidean inner product.  The cofactors come from expanding
Ru·Rv - u·v against the two unit constraints. -/
theorem rodrigues_inner (x y z c s u0 u1 u2 v0 v1 v2 : ℝ)
    (hk : x ^ 2 + y ^ 2 + z ^ 2 = 1) (hc : c ^ 2 + s ^ 2 = 1) :
    ((c + x ^ 2 * (1 - c)) * u0 + (x * y * (1 - c) - z * s) * u1 +
        (x * z * (1 - c) + y * s) * u2) *
      ((c + x ^ 2 * (1 - c)) * v0 + (x * y * (1 - c) - z * s) * v1 +
        (x * z * (1 - c) + y * s) * v2) +
    ((y * x * (1 - c) + z * s) * u0 + (c + y ^ 2 * (1 - c)) * u1 +
        (y * z * (1 - c) - x * s) * u2) *
      ((y * x * (1 - c) + z * s) * v0 + (c + y ^ 2 * (1 - c)) * v1 +
        (y * z * (1 - c) - x * s) * v2) +
    ((z * x * (1 - c) - y * s) * u0 + (z * y * (1 - c) + x * s) * u1 +
        (c + z ^ 2 * (1 - c)) * u2) *
      ((z * x * (1 - c) - y * s) * v0 + (z * y * (1 - c) + x * s) * v1 +
        (c + z ^ 2 * (1 - c)) * v2) =
    u0 * v0 + u1 * v1 + u2 * v2 := by
  linear_combination
    (u0 * v0 + u1 * v1 + u2 * v2 -
      (x * u0 + y * u1 + z * u2) * (x * v0 + y * v1 + z * v2)) * hc +
    (s ^ 2 * (u0 * v0 + u1 * v1 + u2 * v2) +
      (1 - c) ^ 2 * (x * u0 + y * u1 + z * u2) * (x * v0 + y * v1 + z * v2)) * hk

/-- Helper: the components of the normalised axis square-sum to one for a
nonzero axis. -/
theorem normalized_axis_unit (v : Fin 3 → ℝ) (hv : v ≠ 0) :
    (v 0 / Real.sqrt (v 0 ^ 2 + v 1 ^ 2 + v 2 ^ 2)) ^ 2 +
    (v 1 / Real.sqrt (v 0 ^ 2 + v 1 ^ 2 + v 2 ^ 2)) ^ 2 +
    (v 2 / Real.sqrt (v 0 ^ 2 + v 1 ^ 2 + v 2 ^ 2)) ^ 2 = 1 := by
  have hS : 0 < v 0 ^ 2 + v 1 ^ 2 + v 2 ^ 2 := by
    rcases lt_or_eq_of_le (by positivity : (0 : ℝ) ≤ v 0 ^ 2 + v 1 ^ 2 + v 2 ^ 2)
      with h | h
    · exact h
    · exfalso
      apply hv
      have h0 : v 0 ^ 2 = 0 := by nlinarith [sq_nonneg (v 0), sq_nonneg (v 1), sq_nonneg (v 2)]
      have h1 : v 1 ^ 2 = 0 := by nlinarith [sq_nonneg (v 0), sq_nonneg (v 1), sq_nonneg (v 2)]
      have h2 : v 2 ^ 2 = 0 := by nlinarith [sq_nonneg (v 0), sq_nonneg (v 1), sq_nonneg (v 2)]
      have e0 := pow_eq_zero_iff two_ne_zero |>.mp h0
      have e1 := pow_eq_zero_iff two_ne_zero |>.mp h1
      have e2 := pow_eq_zero_iff two_ne_zero |>.mp h2
      funext j
      fin_cases j <;> assumption
  have hn2 : Real.sqrt (v 0 ^ 2 + v 1 ^ 2 + v 2 ^ 2) ^ 2 =
      v 0 ^ 2 + v 1 ^ 2 + v 2 ^ 2 := Real.sq_sqrt hS.le
  have hnpos : 0 < Real.sqrt (v 0 ^ 2 + v 1 ^ 2 + v 2 ^ 2) := Real.sqrt_pos.mpr hS
  field_simp

set_option maxRecDepth 4000 in
/-- C10: in exact real arithmetic `rotate_box` is a rotation about the
box centre: the centre `box_side/2` is a fixed point of the transform,
`rotate_box` maps every position through `rotatePoint`, and for a nonzero
axis all pairwise squared distances between positions are preserved (the
Rodrigues matrix of `get_rotation_matrix` is orthogonal for the
unit-normalised axis). -/
theorem rotate_box_rigid (boxSide ax : Fin 3 → ℝ) (angle : ℝ) (hax : ax ≠ 0)
    (positions : List (Fin 3 → ℝ)) :
    rotate_box boxSide [boxCenter boxSide] ax angle = [boxCenter boxSide] ∧
    rotate_box boxSide positions ax angle =
      positions.map (rotatePoint boxSide ax angle) ∧
    ∀ p q : Fin 3 → ℝ,
      sqDist (rotatePoint boxSide ax angle p) (rotatePoint boxSide ax angle q) =
        sqDist p q := by
  have hunit := normalized_axis_unit ax hax
  have hcs : Real.cos angle ^ 2 + Real.sin angle ^ 2 = 1 := by
    rw [add_comm]
    exact Real.sin_sq_add_cos_sq angle
  refine ⟨?_, rfl, ?_⟩
  · unfold rotate_box
    simp only [List.map_cons, List.map_nil]
    congr 1
    funext i
    unfold rotatePoint
    have hz : (fun j => boxCenter boxSide j - boxCenter boxSide j) =
        (0 : Fin 3 → ℝ) := by
      funext j
      simp
    rw [hz, Matrix.mulVec_zero]
    simp
  · intro p q
    have h := rodrigues_inner
      (ax 0 / Real.sqrt (ax 0 ^ 2 + ax 1 ^ 2 + ax 2 ^ 2))
      (ax 1 / Real.sqrt (ax 0 ^ 2 + ax 1 ^ 2 + ax 2 ^ 2))
      (ax 2 / Real.sqrt (ax 0 ^ 2 + ax 1 ^ 2 + ax 2 ^ 2))
      (Real.cos angle) (Real.sin angle)
      (p 0 - q 0) (p 1 - q 1) (p 2 - q 2)
      (p 0 - q 0) (p 1 - q 1) (p 2 - q 2) hunit hcs
    unfold sqDist rotatePoint
    simp only [get_rotation_matrix, Matrix.mulVec, Matrix.dotProduct,
      Fin.sum_univ_three, Matrix.of_apply, Matrix.cons_val_zero,
      Matrix.cons_val_one, Matrix.head_cons, Matrix.cons_val_two,
      Matrix.tail_cons]
    linear_combination h

/-- Helper: the concrete axis `(1, 0, 0)` is nonzero. -/
theorem axis100_ne_zero : (![(1 : ℝ), 0, 0]) ≠ (0 : Fin 3 → ℝ) := by
  intro h
  have h0 := congrFun h 0
  simp at h0

/-- C10 witness: the rigidity statement at the concrete axis `(1, 0, 0)`,
angle `0`, box side `10`, and an empty position array. -/
theorem rotate_box_rigid_witness :
    (![(1 : ℝ), 0, 0] ≠ (0 : Fin 3 → ℝ)) ∧
    (rotate_box (fun _ => 10) [boxCenter (fun _ => 10)] ![(1 : ℝ), 0, 0] 0 =
        [boxCenter (fun _ => 10)] ∧
      rotate_box (fun _ => 10) [] ![(1 : ℝ), 0, 0] 0 =
        List.map (rotatePoint (fun _ => 10) ![(1 : ℝ), 0, 0] 0) [] ∧
      ∀ p q : Fin 3 → ℝ,
        sqDist (rotatePoint (fun _ => 10) ![(1 : ℝ), 0, 0] 0 p)
            (rotatePoint (fun _ => 10) ![(1 : ℝ), 0, 0] 0 q) = sqDist p q) :=
  ⟨axis100_ne_zero,
    rotate_box_rigid (fun _ => 10) ![(1 : ℝ), 0, 0] 0 axis100_ne_zero []⟩
